import Mathlib

/-!
Verification of the trajectory-and-dispatch pipeline of `snapshots.py`
(repository `haphaeu/mandelbrot_rs`).

The script is embedded shallowly:

* floats become `ℝ`, Python `int()` becomes truncation toward zero on `ℝ`;
* the generator `zoom` becomes a function producing the list of its yields;
* the filesystem becomes an explicit `List String` of existing paths, and the
  external renderer becomes a function `Job → Bool` giving the exit success of
  one `subprocess.run` invocation (which creates the output file exactly when
  it succeeds);
* the worker pool is modelled by sequentially threading the directory state
  through the jobs; per-job instrumentation records whether the renderer was
  invoked and with which outcome.
-/

/-- Python `str(num)` for a natural number, as used by the `{num:04d}` format. -/
def natStr (num : ℕ) : String :=
  Nat.repr num

/-- Python `f-string` zero padding to width 4 (`{num:04d}`): left-pad the decimal
digits with `0` up to length 4; longer numbers are kept as is. -/
def pad4 (num : ℕ) : String :=
  String.mk (List.replicate (4 - (natStr num).length) (Char.ofNat 48)) ++ natStr num

/-- The output path computed at the top of `runCmd` in `snapshots.py`:
`fname = f'_snaps/fractal_{num:04d}.png'`. It depends only on `num`. -/
def fname (num : ℕ) : String :=
  "_snaps/fractal_" ++ pad4 num ++ ".png"

/-- One job tuple appended by `main`: `(x, y, resx, resy, int(max_iters), i)`. -/
structure Job where
  x : ℝ × ℝ
  y : ℝ × ℝ
  resx : ℕ
  resy : ℕ
  maxIters : ℤ
  num : ℕ

/-- Observable effect of one `runCmd` call: the directory contents afterwards,
whether the external renderer was invoked, and the value `runCmd` returns to
its caller (the Python function returns `None` on both paths; the
`CompletedProcess` of `subprocess.run` is discarded). -/
structure CmdEffect where
  fs : List String
  invoked : Bool
  ret : Unit

/-- `runCmd` from `snapshots.py`, over an explicit directory state `fs`:
if the output file already exists the function returns immediately without
invoking the renderer; otherwise it invokes the external renderer, which
creates the file exactly when it exits successfully. -/
def runCmd (render : Job → Bool) (fs : List String) (j : Job) : CmdEffect :=
  if fname j.num ∈ fs then ⟨fs, false, ()⟩
  else ⟨if render j then fname j.num :: fs else fs, true, ()⟩

/-- Terminal status of one frame job, as an event: the renderer was invoked
(`rendered num ok`, where `ok` is the exit success — `ok = false` is a failed
render), or the job was skipped because its output existed, or the single
encoder invocation (`run_ffmpeg`). -/
inductive Event where
  | rendered (num : ℕ) (ok : Bool)
  | skipped (num : ℕ)
  | encode

/-- True exactly on renderer-invocation events. -/
def isRender : Event → Bool
  | .rendered _ _ => true
  | _ => false

/-- True exactly on the encoder event. -/
def isEncode : Event → Bool
  | .encode => true
  | _ => false

/-- True on the terminal statuses a frame job can reach (rendered with either
exit status, or skipped); false on the encoder event. -/
def isJobTerminal : Event → Bool
  | .rendered _ _ => true
  | .skipped _ => true
  | .encode => false

/-- Sequential state-threading model of `pool.imap_unordered(worker, jobs)`
drained by the progress loop of `main`: every job is executed by `runCmd`;
the result is the final directory state, the per-job terminal events, and the
list of values delivered to the consuming loop (worker returns `runCmd`'s
return value, i.e. `None`, for every job). -/
def dispatch (render : Job → Bool) (fs : List String) :
    List Job → List String × List Event × List Unit
  | [] => (fs, [], [])
  | j :: js =>
    let e := runCmd render fs j
    let rest := dispatch render e.fs js
    (rest.1,
     (if e.invoked then Event.rendered j.num (render j) else Event.skipped j.num) :: rest.2.1,
     e.ret :: rest.2.2)

/-- Number of renderer invocations recorded in an event list. -/
def invocations (evs : List Event) : ℕ :=
  (evs.filter isRender).length

/-- The tail of `main` (lines 101-105): the progress loop drains the pool over
all jobs, and only then `run_ffmpeg` is invoked, once, unconditionally. -/
def pipelineEvents (render : Job → Bool) (fs : List String) (jobs : List Job) : List Event :=
  (dispatch render fs jobs).2.1 ++ [Event.encode]

/-- A concrete job used for concrete instantiations. -/
noncomputable def job0 : Job :=
  ⟨(0, 1), (0, 1), 4, 4, 5, 0⟩

/-- A second concrete job with the same frame index as `job0` but different
viewport, resolution and iteration budget. -/
noncomputable def job0x : Job :=
  ⟨(2, 3), (2, 3), 8, 8, 7, 0⟩

lemma dispatch_events_length (render : Job → Bool) (fs : List String) (jobs : List Job) :
    (dispatch render fs jobs).2.1.length = jobs.length := by
  induction jobs generalizing fs with
  | nil => rfl
  | cons j js ih => simp [dispatch, ih]

lemma dispatch_events_terminal (render : Job → Bool) (fs : List String) (jobs : List Job) :
    ∀ e ∈ (dispatch render fs jobs).2.1, isJobTerminal e = true := by
  induction jobs generalizing fs with
  | nil => intro e he; simp [dispatch] at he
  | cons j js ih =>
    intro e he
    simp only [dispatch, List.mem_cons] at he
    rcases he with he | he
    · subst he
      by_cases h : (runCmd render fs j).invoked <;> simp [h, isJobTerminal]
    · exact ih _ _ he

lemma dispatch_events_no_encode (render : Job → Bool) (fs : List String) (jobs : List Job) :
    (dispatch render fs jobs).2.1.filter isEncode = [] := by
  induction jobs generalizing fs with
  | nil => rfl
  | cons j js ih =>
    simp only [dispatch]
    by_cases h : (runCmd render fs j).invoked <;>
      simp [h, List.filter_cons, isEncode, ih]

lemma dispatch_report_replicate (render : Job → Bool) (fs : List String) (jobs : List Job) :
    (dispatch render fs jobs).2.2 = List.replicate jobs.length () := by
  induction jobs generalizing fs with
  | nil => rfl
  | cons j js ih => simp [dispatch, ih, List.replicate_succ]

/-- C5: if a job's output file already exists, `runCmd` returns without
invoking the external renderer and without touching the directory; hence a
dispatch over a directory that already contains every job's output performs
zero render invocations — re-running the pipeline over an unchanged, complete
output directory is idempotent. -/
theorem runCmd_skip_idempotent (render : Job → Bool) (fs : List String)
    (j : Job) (jobs : List Job) :
    (fname j.num ∈ fs →
      ( runCmd render fs j).invoked = false ∧ ( runCmd render fs j).fs = fs)
    ∧ ((∀ k ∈ jobs, fname k.num ∈ fs) →
        invocations (dispatch render fs jobs).2.1 = 0) := by
  constructor
  · intro h
    constructor <;> simp [ runCmd, h]
  · intro hall
    induction jobs with
    | nil => rfl
    | cons k ks ih =>
      have hk : fname k.num ∈ fs := hall k (by simp)
      have hinv : ( runCmd render fs k).invoked = false := by simp [ runCmd, hk]
      have hfs : ( runCmd render fs k).fs = fs := by simp [ runCmd, hk]
      have ihk := ih fun q hq => hall q (by simp [hq])
      simp only [dispatch, hinv, hfs, invocations, List.filter_cons]
      simpa [isRender, invocations] using ihk

/-- C5 witness: a concrete directory already holding the output of frame 0;
`runCmd` does not invoke the renderer, and a second dispatch over the same
jobs performs zero invocations. -/
theorem runCmd_skip_idempotent_witness :
    fname 0 ∈ [fname 0]
    ∧ ( runCmd (fun _ => true) [fname 0] job0).invoked = false
    ∧ ( runCmd (fun _ => true) [fname 0] job0).fs = [fname 0]
    ∧ invocations (dispatch (fun _ => true) [fname 0] [job0]).2.1 = 0 := by
  have hmem : fname 0 ∈ [fname 0] := List.mem_singleton.mpr rfl
  have h := runCmd_skip_idempotent (fun _ => true) [fname 0] job0 [job0]
  have h1 := h.1 (by simp [job0])
  refine ⟨hmem, ?_, ?_, ?_⟩
  · simpa [job0] using h1.1
  · simpa [job0] using h1.2
  · exact h.2 (by intro k hk; simp only [List.mem_singleton] at hk; subst hk; simp [job0])

/-- C6 counterexample: a renderer that fails on frame 0 and a renderer that
succeeds on frame 0 have different outcomes, yet the values delivered to the
dispatching caller are identical (`runCmd` returns `None` either way and the
exit status captured by `subprocess.run` is discarded), and the recorded
terminal statuses exist only in the instrumentation of this model, never in
any value of the script: the caller cannot learn which frames failed or why. -/
theorem dispatch_failure_invisible_cex :
    (fun _ : Job => false) job0 ≠ (fun _ : Job => true) job0
    ∧ (dispatch (fun _ => false) [] [job0]).2.2 = (dispatch (fun _ => true) [] [job0]).2.2
    ∧ (dispatch (fun _ => false) [] [job0]).2.1 = [Event.rendered 0 false]
    ∧ (dispatch (fun _ => true) [] [job0]).2.1 = [Event.rendered 0 true] := by
  refine ⟨by simp, rfl, ?_, ?_⟩ <;>
    simp [dispatch, runCmd, job0]

/-- C6 (amended): a render failure does not abort the batch — dispatch still
brings every job to a terminal status and delivers one result per job to the
caller — but no Failed status or error detail is recorded: for every renderer
behavior the caller-visible results are the same list of unit values. -/
theorem dispatch_no_abort_no_report (render : Job → Bool) (fs : List String)
    (jobs : List Job) :
    (dispatch render fs jobs).2.1.length = jobs.length
    ∧ (∀ e ∈ (dispatch render fs jobs).2.1, isJobTerminal e = true)
    ∧ (dispatch render fs jobs).2.2 = List.replicate jobs.length () := by
  exact ⟨dispatch_events_length render fs jobs,
    dispatch_events_terminal render fs jobs,
    dispatch_report_replicate render fs jobs⟩

/-- C8: in every run of the pipeline tail, the encoder is invoked exactly once,
at the position strictly after the terminal event of every frame job, and this
holds for every renderer behavior — also when some or all frames fail. -/
theorem pipeline_encode_once_last (render : Job → Bool) (fs : List String)
    (jobs : List Job) :
    (pipelineEvents render fs jobs).length = jobs.length + 1
    ∧ ((pipelineEvents render fs jobs).filter isEncode).length = 1
    ∧ (pipelineEvents render fs jobs).getD jobs.length (Event.skipped 0) = Event.encode
    ∧ ∀ i, i < jobs.length →
        isJobTerminal ((pipelineEvents render fs jobs).getD i Event.encode) = true := by
  have hlen := dispatch_events_length render fs jobs
  refine ⟨?_, ?_, ?_, ?_⟩
  · simp [pipelineEvents, hlen]
  · simp [pipelineEvents, List.filter_append, dispatch_events_no_encode, isEncode]
  · rw [pipelineEvents, List.getD_append_right _ _ _ _ (by omega), hlen]
    simp
  · intro i hi
    rw [pipelineEvents, List.getD_append _ _ _ _ (by omega)]
    have hi' : i < (dispatch render fs jobs).2.1.length := by omega
    rw [List.getD_eq_getElem _ _ hi']
    exact dispatch_events_terminal render fs jobs _ (List.getElem_mem hi')

/-- C8 witness: one job, a succeeding renderer, an empty directory: two events,
exactly one encoder invocation, placed after the job's terminal event. -/
theorem pipeline_encode_once_last_witness :
    (pipelineEvents (fun _ => true) [] [job0]).length = 1 + 1
    ∧ ((pipelineEvents (fun _ => true) [] [job0]).filter isEncode).length = 1
    ∧ (pipelineEvents (fun _ => true) [] [job0]).getD 1 (Event.skipped 0) = Event.encode
    ∧ (0 : ℕ) < 1
    ∧ isJobTerminal ((pipelineEvents (fun _ => true) [] [job0]).getD 0 Event.encode) = true := by
  have h := pipeline_encode_once_last (fun _ => true) [] [job0]
  exact ⟨by simpa using h.1, h.2.1, by simpa using h.2.2.1,
    by norm_num, h.2.2.2 0 (by norm_num)⟩

/-- C10: the skip-if-done decision of `runCmd` depends only on the frame index
and the directory contents — two jobs with the same index are skipped or not
identically, whatever their viewport, resolution or iteration budget — and
whenever any file exists at the index-derived path the renderer is not
invoked. -/
theorem skip_depends_only_on_index (render : Job → Bool) (fs : List String)
    (j k : Job) (hnum : j.num = k.num) :
    ( runCmd render fs j).invoked = ( runCmd render fs k).invoked
    ∧ (fname j.num ∈ fs → ( runCmd render fs j).invoked = false) := by
  constructor
  · by_cases h : fname k.num ∈ fs <;> simp [ runCmd, hnum, h]
  · intro h
    simp [ runCmd, h]

/-- C10 witness: `job0` and `job0x` share index 0 but differ in viewport,
resolution and budget; with the output of frame 0 present, neither invokes
the renderer. -/
theorem skip_depends_only_on_index_witness :
    job0.num = job0x.num
    ∧ fname job0.num ∈ [fname 0]
    ∧ ( runCmd (fun _ => true) [fname 0] job0).invoked
        = ( runCmd (fun _ => true) [fname 0] job0x).invoked
    ∧ ( runCmd (fun _ => true) [fname 0] job0).invoked = false := by
  have h := skip_depends_only_on_index (fun _ => true) [fname 0] job0 job0x rfl
  exact ⟨rfl, by simp [job0], h.1, h.2 (by simp [job0])⟩

/-- Default element for `List.getD` on viewport sequences. -/
noncomputable def defaultFrame : (ℝ × ℝ) × (ℝ × ℝ) :=
  ((0, 0), (0, 0))

/-- The ratio computed on line 11 of `snapshots.py`:
`r = min(targetx[1] - targetx[0], targety[1] - targety[0]) ** (1 / frames)`,
with Python's float power embedded as the real power `Real.rpow`. -/
noncomputable def rGeom (targetx targety : ℝ × ℝ) (frames : ℕ) : ℝ :=
  min (targetx.2 - targetx.1) (targety.2 - targety.1) ^ ((1 : ℝ) / (frames : ℝ))

/-- The per-bound normalization computed on lines 12-15 of `snapshots.py`:
`d = (t - s) * (1 - r) / (1 - r**(frames - 1))`. -/
noncomputable def normBound (s t r : ℝ) (frames : ℕ) : ℝ :=
  (t - s) * (1 - r) / (1 - r ^ (frames - 1))

/-- The loop of the generator `zoom` (lines 17-20): at step `f` it yields the
current viewport and then advances every bound by its normalization constant
times `r ^ f`. The first argument of the recursion is the number of frames
still to produce, the second is the current value of `f`. -/
noncomputable def zoomLoop (r dx0 dx1 dy0 dy1 : ℝ) :
    ℕ → ℕ → ℝ × ℝ → ℝ × ℝ → List ((ℝ × ℝ) × (ℝ × ℝ))
  | 0, _, _, _ => []
  | n + 1, f, x, y =>
    (x, y) :: zoomLoop r dx0 dx1 dy0 dy1 n (f + 1)
      (x.1 + dx0 * r ^ f, x.2 + dx1 * r ^ f)
      (y.1 + dy0 * r ^ f, y.2 + dy1 * r ^ f)

/-- The generator `zoom(startx, starty, targetx, targety, frames)` of
`snapshots.py`, as the list of the viewports it yields. -/
noncomputable def zoom (startx starty targetx targety : ℝ × ℝ) (frames : ℕ) :
    List ((ℝ × ℝ) × (ℝ × ℝ)) :=
  let r := rGeom targetx targety frames
  zoomLoop r (normBound startx.1 targetx.1 r frames) (normBound startx.2 targetx.2 r frames)
    (normBound starty.1 targety.1 r frames) (normBound starty.2 targety.2 r frames)
    frames 0 startx starty

lemma zoomLoop_length (r a b c d : ℝ) (n : ℕ) :
    ∀ (f : ℕ) (x y : ℝ × ℝ), (zoomLoop r a b c d n f x y).length = n := by
  induction n with
  | zero => intro f x y; rfl
  | succ n ih => intro f x y; simp [zoomLoop, ih]

lemma zoomLoop_getD (r a b c d : ℝ) (v : (ℝ × ℝ) × (ℝ × ℝ)) :
    ∀ (n f j : ℕ) (x y : ℝ × ℝ), j < n →
      (zoomLoop r a b c d n f x y).getD j v =
        ((x.1 + a * ∑ k ∈ Finset.range j, r ^ (f + k),
          x.2 + b * ∑ k ∈ Finset.range j, r ^ (f + k)),
         (y.1 + c * ∑ k ∈ Finset.range j, r ^ (f + k),
          y.2 + d * ∑ k ∈ Finset.range j, r ^ (f + k))) := by
  intro n
  induction n with
  | zero => intro f j x y hj; exact absurd hj (Nat.not_lt_zero j)
  | succ n ih =>
    intro f j x y hj
    cases j with
    | zero => simp [zoomLoop]
    | succ j =>
      have hj' : j < n := by omega
      have hsum : ∑ k ∈ Finset.range (j + 1), r ^ (f + k)
          = r ^ f + ∑ k ∈ Finset.range j, r ^ (f + 1 + k) := by
        rw [Finset.sum_range_succ']
        simp only [Nat.add_zero]
        rw [add_comm]
        congr 1
        refine Finset.sum_congr rfl fun k _ => ?_
        congr 1
        omega
      simp only [zoomLoop, List.getD_cons_succ]
      rw [ih (f + 1) j _ _ hj']
      simp only [hsum, Prod.mk.injEq]
      exact ⟨⟨by ring, by ring⟩, by ring, by ring⟩

/-- C2: on the geometric-ratio policy the produced sequence satisfies exactly
the claimed formulas: the ratio is the minimum target width to the power
`1/frames`, every bound's normalization constant is
`(target - start)·(1 - r)/(1 - r^(frames-1))`, the first yielded viewport is
the start viewport, and each later viewport adds `norm·r^f` to every bound of
its predecessor. -/
theorem zoom_geometric_recurrence
    (startx starty targetx targety : ℝ × ℝ) (frames f : ℕ)
    (h2 : 2 ≤ frames) (hf : f + 1 < frames) :
    rGeom targetx targety frames
        = min (targetx.2 - targetx.1) (targety.2 - targety.1) ^ ((1 : ℝ) / (frames : ℝ))
    ∧ (∀ s t : ℝ, normBound s t (rGeom targetx targety frames) frames
        = (t - s) * (1 - rGeom targetx targety frames)
            / (1 - rGeom targetx targety frames ^ (frames - 1)))
    ∧ (zoom startx starty targetx targety frames).getD 0 defaultFrame = (startx, starty)
    ∧ (zoom startx starty targetx targety frames).getD (f + 1) defaultFrame =
        ((((zoom startx starty targetx targety frames).getD f defaultFrame).1.1
            + normBound startx.1 targetx.1 (rGeom targetx targety frames) frames
              * rGeom targetx targety frames ^ f,
          ((zoom startx starty targetx targety frames).getD f defaultFrame).1.2
            + normBound startx.2 targetx.2 (rGeom targetx targety frames) frames
              * rGeom targetx targety frames ^ f),
         (((zoom startx starty targetx targety frames).getD f defaultFrame).2.1
            + normBound starty.1 targety.1 (rGeom targetx targety frames) frames
              * rGeom targetx targety frames ^ f,
          ((zoom startx starty targetx targety frames).getD f defaultFrame).2.2
            + normBound starty.2 targety.2 (rGeom targetx targety frames) frames
              * rGeom targetx targety frames ^ f)) := by
  refine ⟨rfl, fun s t => rfl, ?_, ?_⟩
  · simp only [zoom]
    rw [zoomLoop_getD _ _ _ _ _ _ frames 0 0 startx starty (by omega)]
    simp
  · simp only [zoom]
    rw [zoomLoop_getD _ _ _ _ _ _ frames 0 (f + 1) startx starty hf,
      zoomLoop_getD _ _ _ _ _ _ frames 0 f startx starty (by omega)]
    simp only [zero_add, Finset.sum_range_succ, Prod.mk.injEq]
    exact ⟨⟨by ring, by ring⟩, by ring, by ring⟩

/-- C2 witness: a concrete instance with two frames; the first yielded
viewport is the start viewport. -/
theorem zoom_geometric_recurrence_witness :
    2 ≤ 2 ∧ 0 + 1 < 2
    ∧ (zoom ((0 : ℝ), 1) ((0 : ℝ), 1) ((0 : ℝ), 1) ((0 : ℝ), 1) 2).getD 0 defaultFrame
        = (((0 : ℝ), 1), ((0 : ℝ), 1)) := by
  refine ⟨le_refl 2, by norm_num, ?_⟩
  exact (zoom_geometric_recurrence ((0 : ℝ), 1) ((0 : ℝ), 1) ((0 : ℝ), 1) ((0 : ℝ), 1) 2 0
    (le_refl 2) (by norm_num)).2.2.1

/-- The closed rectangular window described by one yielded viewport. -/
def windowOf (v : (ℝ × ℝ) × (ℝ × ℝ)) : Set (ℝ × ℝ) :=
  Set.Icc v.1.1 v.1.2 ×ˢ Set.Icc v.2.1 v.2.2

lemma geom_sum_div (r : ℝ) (hr : r ≠ 1) (j : ℕ) :
    ∑ k ∈ Finset.range j, r ^ k = (1 - r ^ j) / (1 - r) := by
  rw [geom_sum_eq hr]
  have h1 : r - 1 ≠ 0 := sub_ne_zero.mpr hr
  have h2 : (1 : ℝ) - r ≠ 0 := sub_ne_zero.mpr (Ne.symm hr)
  field_simp
  ring

lemma normBound_mul_sum (s t r : ℝ) (frames j : ℕ) (hr : r ≠ 1) :
    normBound s t r frames * ∑ k ∈ Finset.range j, r ^ k
      = (t - s) * ((1 - r ^ j) / (1 - r ^ (frames - 1))) := by
  rw [geom_sum_div r hr j, normBound]
  have h2 : (1 : ℝ) - r ≠ 0 := sub_ne_zero.mpr (Ne.symm hr)
  by_cases hD : (1 : ℝ) - r ^ (frames - 1) = 0
  · rw [hD]
    simp [div_zero]
  · field_simp
    ring

lemma zoom_getD_closed (startx starty targetx targety : ℝ × ℝ) (frames j : ℕ)
    (hj : j < frames) (hr : rGeom targetx targety frames ≠ 1) :
    (zoom startx starty targetx targety frames).getD j defaultFrame =
      ((startx.1 + (targetx.1 - startx.1) *
          ((1 - rGeom targetx targety frames ^ j)
            / (1 - rGeom targetx targety frames ^ (frames - 1))),
        startx.2 + (targetx.2 - startx.2) *
          ((1 - rGeom targetx targety frames ^ j)
            / (1 - rGeom targetx targety frames ^ (frames - 1)))),
       (starty.1 + (targety.1 - starty.1) *
          ((1 - rGeom targetx targety frames ^ j)
            / (1 - rGeom targetx targety frames ^ (frames - 1))),
        starty.2 + (targety.2 - starty.2) *
          ((1 - rGeom targetx targety frames ^ j)
            / (1 - rGeom targetx targety frames ^ (frames - 1))))) := by
  simp only [zoom]
  rw [zoomLoop_getD _ _ _ _ _ _ frames 0 j startx starty hj]
  simp only [zero_add]
  rw [normBound_mul_sum startx.1 targetx.1 _ frames j hr,
    normBound_mul_sum startx.2 targetx.2 _ frames j hr,
    normBound_mul_sum starty.1 targety.1 _ frames j hr,
    normBound_mul_sum starty.2 targety.2 _ frames j hr]

lemma windowOf_ssubset (A1 B1 C1 D1 A0 B0 C0 D0 : ℝ)
    (hA : A0 < A1) (hB : B1 < B0) (hC : C0 < C1) (hDd : D1 < D0)
    (hAB : A1 ≤ B1) (hCD : C1 ≤ D1) :
    windowOf ((A1, B1), (C1, D1)) ⊂ windowOf ((A0, B0), (C0, D0)) := by
  have hw1 : windowOf ((A1, B1), (C1, D1)) = Set.Icc A1 B1 ×ˢ Set.Icc C1 D1 := rfl
  have hw0 : windowOf ((A0, B0), (C0, D0)) = Set.Icc A0 B0 ×ˢ Set.Icc C0 D0 := rfl
  rw [hw1, hw0, Set.ssubset_def]
  refine ⟨Set.prod_mono (Set.Icc_subset_Icc hA.le hB.le) (Set.Icc_subset_Icc hC.le hDd.le),
    fun hsup => ?_⟩
  have hx : (A0, C0) ∈ Set.Icc A0 B0 ×ˢ Set.Icc C0 D0 := by
    refine Set.mem_prod.mpr ⟨Set.mem_Icc.mpr ⟨le_refl A0, ?_⟩, Set.mem_Icc.mpr ⟨le_refl C0, ?_⟩⟩ <;>
      linarith
  obtain ⟨h1, h2⟩ := Set.mem_prod.mp (hsup hx)
  have h3 : A1 ≤ A0 := (Set.mem_Icc.mp h1).1
  linarith

/-- C3: with the geometric-ratio policy, whenever the derived ratio lies in
(0,1) and the target viewport is strictly contained in the start viewport,
each successive window of the produced sequence is a strict subset of its
predecessor: the zoom shrinks monotonically toward the target. -/
theorem zoom_strict_shrink (startx starty targetx targety : ℝ × ℝ) (frames f : ℕ)
    (h2 : 2 ≤ frames) (hf : f + 1 < frames)
    (hr0 : 0 < rGeom targetx targety frames) (hr1 : rGeom targetx targety frames < 1)
    (hx0 : startx.1 < targetx.1) (hx1 : targetx.2 < startx.2) (hxw : targetx.1 < targetx.2)
    (hy0 : starty.1 < targety.1) (hy1 : targety.2 < starty.2) (hyw : targety.1 < targety.2) :
    windowOf ((zoom startx starty targetx targety frames).getD (f + 1) defaultFrame)
      ⊂ windowOf ((zoom startx starty targetx targety frames).getD f defaultFrame) := by
  have hrne : rGeom targetx targety frames ≠ 1 := ne_of_lt hr1
  rw [zoom_getD_closed startx starty targetx targety frames (f + 1) hf hrne,
    zoom_getD_closed startx starty targetx targety frames f (by omega) hrne]
  set r := rGeom targetx targety frames with hr_def
  have hpow_le : ∀ i j : ℕ, i ≤ j → r ^ j ≤ r ^ i := fun i j h =>
    pow_le_pow_of_le_one hr0.le hr1.le h
  have hD : 0 < 1 - r ^ (frames - 1) := by
    have h1 : r ^ (frames - 1) ≤ r ^ 1 := hpow_le 1 (frames - 1) (by omega)
    rw [pow_one] at h1
    linarith
  set D := 1 - r ^ (frames - 1) with hD_def
  set u := (1 - r ^ f) / D with hu_def
  set u' := (1 - r ^ (f + 1)) / D with hu1_def
  have hlt : u < u' := by
    rw [hu_def, hu1_def, div_lt_div_iff_of_pos_right hD]
    have h4 : r ^ (f + 1) < r ^ f := by
      calc r ^ (f + 1) = r ^ f * r := by rw [pow_succ]
        _ < r ^ f * 1 := mul_lt_mul_of_pos_left hr1 (pow_pos hr0 f)
        _ = r ^ f := mul_one _
    linarith
  have hle1 : u' ≤ 1 := by
    rw [hu1_def, div_le_one hD, hD_def]
    have h3 : r ^ (frames - 1) ≤ r ^ (f + 1) := hpow_le (f + 1) (frames - 1) (by omega)
    linarith
  have hxc : (0 : ℝ) < targetx.1 - startx.1 := sub_pos.mpr hx0
  have hxc2 : targetx.2 - startx.2 < 0 := sub_neg.mpr hx1
  have hyc : (0 : ℝ) < targety.1 - starty.1 := sub_pos.mpr hy0
  have hyc2 : targety.2 - starty.2 < 0 := sub_neg.mpr hy1
  refine windowOf_ssubset _ _ _ _ _ _ _ _ ?_ ?_ ?_ ?_ ?_ ?_
  · have := mul_lt_mul_of_pos_left hlt hxc
    linarith
  · have := mul_lt_mul_of_neg_left hlt hxc2
    linarith
  · have := mul_lt_mul_of_pos_left hlt hyc
    linarith
  · have := mul_lt_mul_of_neg_left hlt hyc2
    linarith
  · have ha : (targetx.1 - startx.1) * u' ≤ (targetx.1 - startx.1) * 1 :=
      mul_le_mul_of_nonneg_left hle1 hxc.le
    have hb : (targetx.2 - startx.2) * 1 ≤ (targetx.2 - startx.2) * u' :=
      mul_le_mul_of_nonpos_left hle1 hxc2.le
    nlinarith
  · have ha : (targety.1 - starty.1) * u' ≤ (targety.1 - starty.1) * 1 :=
      mul_le_mul_of_nonneg_left hle1 hyc.le
    have hb : (targety.2 - starty.2) * 1 ≤ (targety.2 - starty.2) * u' :=
      mul_le_mul_of_nonpos_left hle1 hyc2.le
    nlinarith

/-- C3 witness: start window (0,2)x(0,2), target window (1,5/4)x(1,5/4),
two frames; the derived ratio is (1/4)^(1/2), which lies in (0,1), and the
second window is a strict subset of the first. -/
theorem zoom_strict_shrink_witness :
    2 ≤ 2 ∧ 0 + 1 < 2
    ∧ 0 < rGeom ((1 : ℝ), 5 / 4) ((1 : ℝ), 5 / 4) 2
    ∧ rGeom ((1 : ℝ), 5 / 4) ((1 : ℝ), 5 / 4) 2 < 1
    ∧ (0 : ℝ) < 1 ∧ (5 / 4 : ℝ) < 2 ∧ (1 : ℝ) < 5 / 4
    ∧ windowOf ((zoom ((0 : ℝ), 2) ((0 : ℝ), 2) ((1 : ℝ), 5 / 4) ((1 : ℝ), 5 / 4) 2).getD 1
          defaultFrame)
        ⊂ windowOf ((zoom ((0 : ℝ), 2) ((0 : ℝ), 2) ((1 : ℝ), 5 / 4) ((1 : ℝ), 5 / 4) 2).getD 0
          defaultFrame) := by
  have key : rGeom ((1 : ℝ), 5 / 4) ((1 : ℝ), 5 / 4) 2 = (1 / 4 : ℝ) ^ ((1 / 2 : ℝ)) := by
    simp only [rGeom, min_self]
    norm_num
  have hr0 : 0 < rGeom ((1 : ℝ), 5 / 4) ((1 : ℝ), 5 / 4) 2 := by
    rw [key]
    exact Real.rpow_pos_of_pos (by norm_num) _
  have hr1 : rGeom ((1 : ℝ), 5 / 4) ((1 : ℝ), 5 / 4) 2 < 1 := by
    rw [key]
    exact Real.rpow_lt_one (by norm_num) (by norm_num) (by norm_num)
  refine ⟨le_refl 2, by norm_num, hr0, hr1, by norm_num, by norm_num, by norm_num, ?_⟩
  exact zoom_strict_shrink ((0 : ℝ), 2) ((0 : ℝ), 2) ((1 : ℝ), 5 / 4) ((1 : ℝ), 5 / 4) 2 0
    (le_refl 2) (by norm_num) hr0 hr1 (by norm_num) (by norm_num) (by norm_num)
    (by norm_num) (by norm_num) (by norm_num)

/-- Python `int()` applied to a float: truncation toward zero. -/
noncomputable def pyInt (x : ℝ) : ℤ :=
  if 0 ≤ x then ⌊x⌋ else ⌈x⌉

/-- Line 87 of `snapshots.py`:
`factor_max_iters = (max_iters1 / max_iters) ** (1 / (frames - 1))`. -/
noncomputable def factor_max_iters (max_iters max_iters1 frames : ℕ) : ℝ :=
  ((max_iters1 : ℝ) / (max_iters : ℝ)) ^ ((1 : ℝ) / ((frames - 1 : ℕ) : ℝ))

/-- The iteration budgets produced by the job-building loop (lines 96-99):
each frame receives `int(max_iters)` and `max_iters` is then multiplied by
the factor. -/
noncomputable def iterBudgets (max_iters factor : ℝ) : ℕ → List ℤ
  | 0 => []
  | n + 1 => pyInt max_iters :: iterBudgets (max_iters * factor) factor n

/-- The per-frame iteration budgets of a run of `main`, generalized over the
start budget, end budget and frame count (256, 12000 and fps*ttime in the
script). -/
noncomputable def budgetsOf (max_iters max_iters1 frames : ℕ) : List ℤ :=
  iterBudgets (max_iters : ℝ) (factor_max_iters max_iters max_iters1 frames) frames

lemma iterBudgets_getD (factor : ℝ) :
    ∀ (n f : ℕ) (a : ℝ), f < n →
      (iterBudgets a factor n).getD f 0 = pyInt (a * factor ^ f) := by
  intro n
  induction n with
  | zero => intro f a hf; exact absurd hf (Nat.not_lt_zero f)
  | succ n ih =>
    intro f a hf
    cases f with
    | zero => simp [iterBudgets]
    | succ f =>
      have hf' : f < n := by omega
      simp only [iterBudgets, List.getD_cons_succ]
      rw [ih f (a * factor) hf']
      congr 1
      rw [pow_succ]
      ring

/-- C4 (amended): the iteration budget of frame `f` is the truncation
`int(startIters * factor^f)` — `int()`, not `round()` — with
`factor = (endIters/startIters)^(1/(N-1))`; the budget of frame 0 is exactly
the start budget, and the sequence is non-decreasing when the end budget is
at least the start budget. -/
theorem iterBudgets_trunc_formula (s e F f : ℕ)
    (hs : 0 < s) (he : 0 < e) (hF : 2 ≤ F) (hf : f < F) :
    (budgetsOf s e F).getD f 0 = pyInt ((s : ℝ) * factor_max_iters s e F ^ f)
    ∧ (budgetsOf s e F).getD 0 0 = (s : ℤ)
    ∧ (s ≤ e → f + 1 < F →
        (budgetsOf s e F).getD f 0 ≤ (budgetsOf s e F).getD (f + 1) 0) := by
  have hgd : ∀ g, g < F →
      (budgetsOf s e F).getD g 0 = pyInt ((s : ℝ) * factor_max_iters s e F ^ g) := by
    intro g hg
    rw [budgetsOf]
    exact iterBudgets_getD _ F g _ hg
  refine ⟨hgd f hf, ?_, ?_⟩
  · rw [hgd 0 (by omega), pow_zero, mul_one]
    simp only [pyInt]
    rw [if_pos (Nat.cast_nonneg s)]
    exact Int.floor_natCast s
  · intro hse hf1
    rw [hgd f hf, hgd (f + 1) hf1]
    have hfac : 1 ≤ factor_max_iters s e F := by
      rw [factor_max_iters]
      refine Real.one_le_rpow ?_ ?_
      · rw [one_le_div (by exact_mod_cast hs)]
        exact_mod_cast hse
      · positivity
    have hx0 : (0 : ℝ) ≤ (s : ℝ) * factor_max_iters s e F ^ f := by positivity
    have hx1 : (s : ℝ) * factor_max_iters s e F ^ f
        ≤ (s : ℝ) * factor_max_iters s e F ^ (f + 1) := by
      refine mul_le_mul_of_nonneg_left ?_ (Nat.cast_nonneg s)
      exact pow_le_pow_right₀ hfac (Nat.le_succ f)
    simp only [pyInt]
    rw [if_pos hx0, if_pos (hx0.trans hx1)]
    exact Int.floor_mono hx1

/-- C4 witness: start budget 1, end budget 3, three frames: the budget of
frame 1 is the truncated value and the budget of frame 0 is the start
budget. -/
theorem iterBudgets_trunc_formula_witness :
    0 < 1 ∧ 0 < 3 ∧ 2 ≤ 3 ∧ 1 < 3
    ∧ (budgetsOf 1 3 3).getD 1 0 = pyInt ((1 : ℝ) * factor_max_iters 1 3 3 ^ 1)
    ∧ (budgetsOf 1 3 3).getD 0 0 = (1 : ℤ) := by
  have h := iterBudgets_trunc_formula 1 3 3 1 (by norm_num) (by norm_num)
    (by norm_num) (by norm_num)
  exact ⟨by norm_num, by norm_num, by norm_num, by norm_num, by exact_mod_cast h.1, h.2.1⟩

/-- C4 counterexample: with start budget 1, end budget 3 and three frames the
factor is the square root of 3, so the code assigns frame 1 the budget
`int(√3) = 1`, while the claimed formula `round(startIters·factor^f)` gives
`round(√3) = 2`. -/
theorem budget_round_counterexample :
    (budgetsOf 1 3 3).getD 1 0 ≠ round ((1 : ℝ) * factor_max_iters 1 3 3 ^ 1) := by
  have hfac : factor_max_iters 1 3 3 = Real.sqrt 3 := by
    rw [factor_max_iters, Real.sqrt_eq_rpow]
    norm_num
  have hsq : Real.sqrt 3 ^ 2 = 3 := Real.sq_sqrt (by norm_num)
  have hnn : (0 : ℝ) ≤ Real.sqrt 3 := Real.sqrt_nonneg 3
  have hg1 : (1 : ℝ) ≤ Real.sqrt 3 := by nlinarith
  have hl2 : Real.sqrt 3 < 2 := by nlinarith
  have hg32 : (3 / 2 : ℝ) ≤ Real.sqrt 3 := by nlinarith
  have hlhs : (budgetsOf 1 3 3).getD 1 0 = 1 := by
    rw [budgetsOf, iterBudgets_getD _ 3 1 _ (by norm_num), hfac]
    have h1 : ((1 : ℕ) : ℝ) * Real.sqrt 3 ^ 1 = Real.sqrt 3 := by
      push_cast
      ring
    rw [h1]
    simp only [pyInt]
    rw [if_pos hnn]
    refine Int.floor_eq_iff.mpr ⟨?_, ?_⟩ <;> push_cast <;> linarith
  have hrhs : round ((1 : ℝ) * factor_max_iters 1 3 3 ^ 1) = 2 := by
    rw [hfac, pow_one, one_mul, round_eq]
    refine Int.floor_eq_iff.mpr ⟨?_, ?_⟩ <;> push_cast <;> linarith
  rw [hlhs, hrhs]
  norm_num

/-- The job-building loop of `main` (lines 96-99): pairs each yielded viewport
with the current truncated iteration budget and its index, then multiplies the
budget by the factor. -/
noncomputable def buildJobsLoop (resx resy : ℕ) (factor : ℝ) :
    List ((ℝ × ℝ) × (ℝ × ℝ)) → ℕ → ℝ → List Job
  | [], _, _ => []
  | (x, y) :: rest, i, max_iters =>
    ⟨x, y, resx, resy, pyInt max_iters, i⟩ ::
      buildJobsLoop resx resy factor rest (i + 1) (max_iters * factor)

/-- The fallible part of consuming the generator `zoom`: Python raises
`ZeroDivisionError` when `frames = 0` (the integer division `1 / frames` on
line 11) and when the normalization denominator `1 - r**(frames - 1)` is zero
on lines 12-15 — in particular for every run with `frames = 1`. On success the
value is the list of yields. -/
noncomputable def zoomE (startx starty targetx targety : ℝ × ℝ) (frames : ℕ) :
    Except String (List ((ℝ × ℝ) × (ℝ × ℝ))) :=
  if frames = 0 then .error ("ZeroDivisionError: division by zero")
  else if 1 - rGeom targetx targety frames ^ (frames - 1) = 0 then
    .error ("ZeroDivisionError: float division by zero")
  else .ok (zoom startx starty targetx targety frames)

/-- `main`, generalized over its constants, up to the encoder call: line 87
divides by `frames - 1` (raising `ZeroDivisionError` when `frames = 1`), the
job-building loop consumes `zoom` (raising inside `zoomE`, in particular for
`frames = 0`), and only afterwards is the job list dispatched. An error value
means the program crashed before dispatching anything. -/
noncomputable def mainE (render : Job → Bool) (fs : List String)
    (startx starty targetx targety : ℝ × ℝ)
    (resx resy max_iters max_iters1 frames : ℕ) :
    Except String (List String × List Event × List Unit) :=
  if (frames : ℤ) - 1 = 0 then .error ("ZeroDivisionError: division by zero")
  else
    match zoomE startx starty targetx targety frames with
    | .error e => .error e
    | .ok seq =>
      .ok (dispatch render fs
        (buildJobsLoop resx resy (factor_max_iters max_iters max_iters1 frames) seq 0
          (max_iters : ℝ)))

/-- True exactly when the run raised an exception. -/
def raised {α : Type} : Except String α → Bool
  | .error _ => true
  | .ok _ => false

/-- Renderer invocations performed by a possibly-crashed run. -/
def runInvocations : Except String (List String × List Event × List Unit) → ℕ
  | .error _ => 0
  | .ok out => invocations out.2.1

/-- C7: for every frame count below 2 the pipeline raises a division-by-zero
error — `1/(frames-1)` on line 87 for one frame, `1/frames` inside `zoom` for
zero frames — before any dispatch happens: the run fails fast and performs
zero render invocations. -/
theorem main_frames_lt_two_raises (render : Job → Bool) (fs : List String)
    (startx starty targetx targety : ℝ × ℝ)
    (resx resy max_iters max_iters1 frames : ℕ) (hframes : frames < 2) :
    raised (mainE render fs startx starty targetx targety
        resx resy max_iters max_iters1 frames) = true
    ∧ runInvocations (mainE render fs startx starty targetx targety
        resx resy max_iters max_iters1 frames) = 0 := by
  interval_cases frames
  · constructor <;> norm_num [mainE, zoomE, raised, runInvocations]
  · constructor <;> norm_num [mainE, raised, runInvocations]

/-- C7 witness: a concrete run with one frame raises and dispatches nothing. -/
theorem main_frames_lt_two_raises_witness :
    1 < 2
    ∧ raised (mainE (fun _ => true) [] ((0 : ℝ), 1) ((0 : ℝ), 1) ((0 : ℝ), 1) ((0 : ℝ), 1)
        4 4 5 12 1) = true
    ∧ runInvocations (mainE (fun _ => true) [] ((0 : ℝ), 1) ((0 : ℝ), 1) ((0 : ℝ), 1)
        ((0 : ℝ), 1) 4 4 5 12 1) = 0 := by
  have h := main_frames_lt_two_raises (fun _ => true) [] ((0 : ℝ), 1) ((0 : ℝ), 1)
    ((0 : ℝ), 1) ((0 : ℝ), 1) 4 4 5 12 1 (by norm_num)
  exact ⟨by norm_num, h.1, h.2⟩

/-- The interpolation policies named by the specification. -/
inductive InterpolationPolicy where
  | linear
  | exponentialDecay (r : ℝ)
  | geometricRatio

/-- Modelled from the spec: the linear-only script variant of this repository
is not under src/; per the specification each bound moves by a constant
per-frame delta, `bound(f) = startBound + f*(targetBound - startBound)/N`. -/
noncomputable def zoomLinear (startx starty targetx targety : ℝ × ℝ) (frames : ℕ) :
    List ((ℝ × ℝ) × (ℝ × ℝ)) :=
  (List.range frames).map fun f : ℕ =>
    ((startx.1 + (f : ℝ) * (targetx.1 - startx.1) / (frames : ℝ),
      startx.2 + (f : ℝ) * (targetx.2 - startx.2) / (frames : ℝ)),
     (starty.1 + (f : ℝ) * (targety.1 - starty.1) / (frames : ℝ),
      starty.2 + (f : ℝ) * (targety.2 - starty.2) / (frames : ℝ)))

/-- Modelled from the spec: the exponential-decay script variant of this
repository is not under src/; per the specification it follows the same
recurrence as the geometric-ratio policy with a fixed tunable ratio `r` in
place of the derived one. -/
noncomputable def zoomExpDecay (r : ℝ) (startx starty targetx targety : ℝ × ℝ) (frames : ℕ) :
    List ((ℝ × ℝ) × (ℝ × ℝ)) :=
  zoomLoop r (normBound startx.1 targetx.1 r frames) (normBound startx.2 targetx.2 r frames)
    (normBound starty.1 targety.1 r frames) (normBound starty.2 targety.2 r frames)
    frames 0 startx starty

/-- The viewport interpolator over a chosen policy: linear and
exponential-decay are modelled from the spec, geometric-ratio is the `zoom`
of `snapshots.py`. -/
noncomputable def interpolate :
    InterpolationPolicy → (ℝ × ℝ) → (ℝ × ℝ) → (ℝ × ℝ) → (ℝ × ℝ) → ℕ →
      List ((ℝ × ℝ) × (ℝ × ℝ))
  | .linear => zoomLinear
  | .exponentialDecay r => zoomExpDecay r
  | .geometricRatio => zoom

/-- C1: every one of the three interpolation policies is supported: for every
start viewport, target viewport and frame count of at least 2, the
interpolator produces a sequence of exactly `frames` viewports whose first
element is the start viewport. -/
theorem interpolate_all_policies (policy : InterpolationPolicy)
    (startx starty targetx targety : ℝ × ℝ) (frames : ℕ) (h2 : 2 ≤ frames) :
    (interpolate policy startx starty targetx targety frames).length = frames
    ∧ (interpolate policy startx starty targetx targety frames).getD 0 defaultFrame
        = (startx, starty) := by
  obtain ⟨n, rfl⟩ : ∃ n, frames = n + 1 := ⟨frames - 1, by omega⟩
  cases policy with
  | linear =>
    constructor
    · simp only [interpolate, zoomLinear, List.length_map, List.length_range]
    · simp [interpolate, zoomLinear, List.range_succ_eq_map]
  | exponentialDecay r =>
    refine ⟨by simp [interpolate, zoomExpDecay, zoomLoop_length], ?_⟩
    simp only [interpolate, zoomExpDecay]
    rw [zoomLoop_getD _ _ _ _ _ _ (n + 1) 0 0 startx starty (by omega)]
    simp
  | geometricRatio =>
    refine ⟨by simp [interpolate, zoom, zoomLoop_length], ?_⟩
    simp only [interpolate, zoom]
    rw [zoomLoop_getD _ _ _ _ _ _ (n + 1) 0 0 startx starty (by omega)]
    simp

/-- C1 witness: each of the three policies produces a two-frame sequence on a
concrete input, and the linear sequence starts at the start viewport. -/
theorem interpolate_all_policies_witness :
    2 ≤ 2
    ∧ (interpolate .linear ((0 : ℝ), 1) ((0 : ℝ), 1) ((0 : ℝ), 1) ((0 : ℝ), 1) 2).length = 2
    ∧ (interpolate (.exponentialDecay (1 / 2)) ((0 : ℝ), 1) ((0 : ℝ), 1) ((0 : ℝ), 1)
        ((0 : ℝ), 1) 2).length = 2
    ∧ (interpolate .geometricRatio ((0 : ℝ), 1) ((0 : ℝ), 1) ((0 : ℝ), 1)
        ((0 : ℝ), 1) 2).length = 2
    ∧ (interpolate .linear ((0 : ℝ), 1) ((0 : ℝ), 1) ((0 : ℝ), 1) ((0 : ℝ), 1) 2).getD 0
        defaultFrame = (((0 : ℝ), 1), ((0 : ℝ), 1)) := by
  have h1 := interpolate_all_policies .linear ((0 : ℝ), 1) ((0 : ℝ), 1) ((0 : ℝ), 1)
    ((0 : ℝ), 1) 2 (le_refl 2)
  have h2 := interpolate_all_policies (.exponentialDecay (1 / 2)) ((0 : ℝ), 1) ((0 : ℝ), 1)
    ((0 : ℝ), 1) ((0 : ℝ), 1) 2 (le_refl 2)
  have h3 := interpolate_all_policies .geometricRatio ((0 : ℝ), 1) ((0 : ℝ), 1) ((0 : ℝ), 1)
    ((0 : ℝ), 1) 2 (le_refl 2)
  exact ⟨le_refl 2, h1.1, h2.1, h3.1, h1.2⟩
